import Mathlib

set_option maxRecDepth 4000

/-
Shallow embedding of the Python-to-JavaScript transpiler and the test
harness of the LeetCodeChallenge scene (transpilePythonToJS, runTests,
submitSolution), together with the failed-attempt counter of the scene.
Strings are modelled as `List Char`; every JavaScript regular expression
used by the source is modelled by an explicit matching function with the
same leftmost / greedy / lazy semantics on the inputs involved.
-/

/-- Word characters of the host regexes: ASCII letters, digits and underscore. -/
def isWordChar (c : Char) : Bool :=
  (('a' ≤ c && c ≤ 'z') || ('A' ≤ c && c ≤ 'Z') || ('0' ≤ c && c ≤ '9') || c = '_')

/-- Whitespace characters of the host regexes (also the set removed by trimming). -/
def isSpaceChar (c : Char) : Bool :=
  (c = ' ' || c = '\t' || c = '\n' || c = '\r' || c = '\x0b' || c = '\x0c')

/-- Newline splitting of the host runtime: split on the newline character. -/
def splitLines : List Char → List (List Char)
  | [] => [[]]
  | '\n' :: cs => [] :: splitLines cs
  | c :: cs =>
    match splitLines cs with
    | l :: ls => (c :: l) :: ls
    | [] => [[c]]

/-- Whitespace trimming of the host runtime, from both ends of a line. -/
def trimChars (s : List Char) : List Char :=
  ((s.dropWhile isSpaceChar).reverse.dropWhile isSpaceChar).reverse

/-- Length of the match of `^(\s*)` on a line. -/
def leadingSpaces (s : List Char) : Nat :=
  (s.takeWhile isSpaceChar).length

/-- Substring containment test of the host runtime. -/
def containsSub (pat : List Char) : Nat → List Char → Bool
  | _, [] => pat.isPrefixOf []
  | 0, _ => false
  | fuel + 1, c :: cs =>
    if pat.isPrefixOf (c :: cs) then true else containsSub pat fuel cs

/-- Global replacement of a literal pattern, continuing after each match,
as `s.replace(/pat/g, rep)` with an escaped-literal pattern. -/
def replaceAllLit (pat rep : List Char) : Nat → List Char → List Char
  | _, [] => []
  | 0, s => s
  | fuel + 1, c :: cs =>
    if pat.isPrefixOf (c :: cs) then
      rep ++ replaceAllLit pat rep fuel ((c :: cs).drop pat.length)
    else
      c :: replaceAllLit pat rep fuel cs

/-- Global replacement of `\bpat` (and, when `trailB` is set, `\bpat\b`):
the previous character must not be a word character, and for `trailB`
the character after the match must not be one either. -/
def replaceWordB (pat rep : List Char) (trailB : Bool) :
    Nat → Option Char → List Char → List Char
  | _, _, [] => []
  | 0, _, s => s
  | fuel + 1, prev, c :: cs =>
    let s := c :: cs
    let leadOk := match prev with
      | none => true
      | some p => !isWordChar p
    let rest := s.drop pat.length
    let trailOk := !trailB || (match rest with
      | [] => true
      | d :: _ => !isWordChar d)
    if leadOk && pat.isPrefixOf s && trailOk then
      rep ++ replaceWordB pat rep trailB fuel pat.getLast? rest
    else
      c :: replaceWordB pat rep trailB fuel (some c) cs

/-- Entry point for the word-boundary replacements of the per-line pass. -/
def wordReplaceAll (pat rep : String) (trailB : Bool) (s : List Char) : List Char :=
  replaceWordB pat.data rep.data trailB s.length none s

/-- Literal-pattern replacement entry point. -/
def litReplaceAll (pat rep : String) (s : List Char) : List Char :=
  replaceAllLit pat.data rep.data s.length s

/-- The lazy tail `(.+?):\s*$`: the shortest nonempty group followed by a
colon whose suffix is all whitespace. -/
def lazyColonSplit : Nat → List Char → List Char → Option (List Char)
  | _, _, [] => none
  | 0, _, _ => none
  | fuel + 1, acc, c :: cs =>
    if c = ':' && !acc.isEmpty && cs.all isSpaceChar then
      some acc.reverse
    else
      lazyColonSplit fuel (c :: acc) cs

/-- The tail `\s+(.+?):\s*$`: the greedy space run is tried longest first
(the host engine backtracks it when the lazy group cannot match). -/
def spacedColonSplitAux : Nat → List Char → Option (List Char)
  | 0, _ => none
  | i + 1, t =>
    match lazyColonSplit (t.drop (i + 1)).length [] (t.drop (i + 1)) with
    | some cond => some cond
    | none => spacedColonSplitAux i t

def spacedColonSplit (t : List Char) : Option (List Char) :=
  spacedColonSplitAux (t.takeWhile isSpaceChar).length t

/-- Leftmost match of `kw\s+(.+?):\s*$` in a line: returns the text before
the match and the captured group. -/
def findKwCond (kw : List Char) : Nat → List Char → Option (List Char × List Char)
  | _, [] => none
  | 0, _ => none
  | fuel + 1, c :: cs =>
    let s := c :: cs
    let found :=
      if kw.isPrefixOf s then spacedColonSplit (s.drop kw.length) else none
    match found with
    | some cond => some ([], cond)
    | none =>
      match findKwCond kw fuel cs with
      | some (p, cond) => some (c :: p, cond)
      | none => none

/-- Replacement of the leftmost match of `kw\s+(.+?):\s*$` by the given
opening and closing text around the group; the match extends to the end
of the line, so only the text before it survives. -/
def replaceKwCond (kw pre post : List Char) (s : List Char) : List Char :=
  match findKwCond kw s.length s with
  | some (p, cond) => p ++ pre ++ cond ++ post
  | none => s

/-- Whether a trimmed line matches `^kw\s+.+:\s*$`. -/
def isKwHeader (kw : List Char) (t : List Char) : Bool :=
  kw.isPrefixOf t && decide (kw.length + 3 ≤ t.length) &&
  (match t.drop kw.length with
   | c :: _ => isSpaceChar c
   | [] => false) &&
  (match t.getLast? with
   | some c => c = ':'
   | none => false)

/-- Leftmost match of `else:\s*$`: returns the text before the match. -/
def findElseMatch : Nat → List Char → Option (List Char)
  | _, [] => none
  | 0, _ => none
  | fuel + 1, c :: cs =>
    let s := c :: cs
    if "else:".data.isPrefixOf s && (s.drop 5).all isSpaceChar then
      some []
    else
      match findElseMatch fuel cs with
      | some p => some (c :: p)
      | none => none

/-- Replacement of the leftmost match of `else:\s*$` by the host else
line (a closing brace, the else keyword, an opening brace). -/
def replaceElseLine (s : List Char) : List Char :=
  match findElseMatch s.length s with
  | some p => p ++ "\x7d else \x7b".data
  | none => s

/-- Attempt of `(\w+)\s+in\s+(\w+)` at the head of `s`: the greedy word and
space runs are forced (word and space characters are disjoint, so no
backtracking can succeed); returns item, collection and match length. -/
def matchInAt (s : List Char) : Option (List Char × List Char × Nat) :=
  let w1 := s.takeWhile isWordChar
  if w1.isEmpty then none else
  let r1 := s.drop w1.length
  let sp1 := r1.takeWhile isSpaceChar
  if sp1.isEmpty then none else
  let r2 := r1.drop sp1.length
  if "in".data.isPrefixOf r2 then
    let r3 := r2.drop 2
    let sp2 := r3.takeWhile isSpaceChar
    if sp2.isEmpty then none else
    let r4 := r3.drop sp2.length
    let w2 := r4.takeWhile isWordChar
    if w2.isEmpty then none else
    some (w1, w2, w1.length + sp1.length + 2 + sp2.length + w2.length)
  else none

/-- Leftmost match of `(\w+)\s+in\s+(\w+)`: text before, item, collection,
text after the match. -/
def findInMatch : Nat → List Char → Option (List Char × List Char × List Char × List Char)
  | _, [] => none
  | 0, _ => none
  | fuel + 1, c :: cs =>
    let s := c :: cs
    match matchInAt s with
    | some (item, coll, len) => some ([], item, coll, s.drop len)
    | none =>
      match findInMatch fuel cs with
      | some (p, i, co, r) => some (c :: p, i, co, r)
      | none => none

/-- The membership heuristic: when `(\w+)\s+in\s+(\w+)` matches and the line
does not contain `for`, the matched text is rewritten to
`collection.has(item)`. -/
def applyInCheck (s : List Char) : List Char :=
  match findInMatch s.length s with
  | some (p, item, coll, rest) =>
    if containsSub "for".data s.length s then s
    else p ++ coll ++ ".has(".data ++ item ++ [')'] ++ rest
  | none => s

/-- Attempt of `for\s+(\w+)\s+in\s+(.+?):\s*$` at the head of `s`. -/
def matchForAt (s : List Char) : Option (List Char × List Char) :=
  if "for".data.isPrefixOf s then
    let r1 := s.drop 3
    let sp1 := r1.takeWhile isSpaceChar
    if sp1.isEmpty then none else
    let r2 := r1.drop sp1.length
    let w1 := r2.takeWhile isWordChar
    if w1.isEmpty then none else
    let r3 := r2.drop w1.length
    let sp2 := r3.takeWhile isSpaceChar
    if sp2.isEmpty then none else
    let r4 := r3.drop sp2.length
    if "in".data.isPrefixOf r4 then
      match spacedColonSplit (r4.drop 2) with
      | some coll => some (w1, coll)
      | none => none
    else none
  else none

/-- Leftmost match of `for\s+(\w+)\s+in\s+(.+?):\s*$`. -/
def findForMatch : Nat → List Char → Option (List Char × List Char)
  | _, [] => none
  | 0, _ => none
  | fuel + 1, c :: cs =>
    match matchForAt (c :: cs) with
    | some r => some r
    | none => findForMatch fuel cs

/-- Tail `else\s+(.+)$` after the lazy middle group of the ternary
pattern: returns the final greedy group (backtracking one space when the
greedy space run reaches the end of the line). -/
def elseTail (w : List Char) : Option (List Char) :=
  if "else".data.isPrefixOf w then
    let r := w.drop 4
    let sp := r.takeWhile isSpaceChar
    if sp.isEmpty then none
    else
      let z := r.drop sp.length
      if z.isEmpty then
        if 2 ≤ sp.length then some (r.drop (sp.length - 1)) else none
      else some z
  else none

/-- Tail `\s+else\s+(.+)$` at a candidate split position. -/
def midElse (v : List Char) : Option (List Char) :=
  let sp := v.takeWhile isSpaceChar
  if sp.isEmpty then none else elseTail (v.drop sp.length)

/-- The lazy split `(.+?)\s+else\s+(.+)$`: shortest nonempty first group
whose remainder matches the else tail. -/
def lazyElseSplit : Nat → List Char → List Char → Option (List Char × List Char)
  | _, _, [] => none
  | 0, _, _ => none
  | fuel + 1, acc, c :: cs =>
    if !acc.isEmpty then
      match midElse (c :: cs) with
      | some b => some (acc.reverse, b)
      | none => lazyElseSplit fuel (c :: acc) cs
    else lazyElseSplit fuel (c :: acc) cs

/-- Tail `\s+if\s+(.+?)\s+else\s+(.+)$` after the lazy first group:
returns the condition and the else value. -/
def ifTail (t : List Char) : Option (List Char × List Char) :=
  let sp := t.takeWhile isSpaceChar
  if sp.isEmpty then none else
  let r := t.drop sp.length
  if "if".data.isPrefixOf r then
    let r2 := r.drop 2
    let sp2 := r2.takeWhile isSpaceChar
    if sp2.isEmpty then none else
    let u := r2.drop sp2.length
    lazyElseSplit u.length [] u
  else none

/-- Match of `^(.+?)\s+if\s+(.+?)\s+else\s+(.+)$`: value-if-true,
condition, value-if-false. -/
def findTernary : Nat → List Char → List Char → Option (List Char × List Char × List Char)
  | _, _, [] => none
  | 0, _, _ => none
  | fuel + 1, acc, c :: cs =>
    let acc' := c :: acc
    match ifTail cs with
    | some (cond, b) => some (acc'.reverse, cond, b)
    | none => findTernary fuel acc' cs

/-- Global replacement of `len\(([^)]+)\)` with `$1.length`. -/
def replaceLen : Nat → List Char → List Char
  | _, [] => []
  | 0, s => s
  | fuel + 1, c :: cs =>
    let s := c :: cs
    if "len(".data.isPrefixOf s then
      let r := s.drop 4
      let grp := r.takeWhile (fun d => d != ')')
      let rest := r.drop grp.length
      if !grp.isEmpty && (match rest with
          | ')' :: _ => true
          | _ => false) then
        grp ++ ".length".data ++ replaceLen fuel (rest.drop 1)
      else c :: replaceLen fuel cs
    else c :: replaceLen fuel cs

/-- Attempt of `def\s+(\w+)\s*\((.*?)\):` at the head of `s`: function name
and the raw parameter list (lazy, ending at the first `):`; the dot of the
host regex does not cross a newline). -/
def lazyParamsSplit : Nat → List Char → List Char → Option (List Char)
  | _, acc, ')' :: ':' :: _ => some acc.reverse
  | fuel + 1, acc, c :: cs =>
    if c = '\n' then none else lazyParamsSplit fuel (c :: acc) cs
  | _, _, _ => none

def matchDefAt (s : List Char) : Option (List Char × List Char) :=
  if "def".data.isPrefixOf s then
    let r1 := s.drop 3
    let sp1 := r1.takeWhile isSpaceChar
    if sp1.isEmpty then none else
    let r2 := r1.drop sp1.length
    let name := r2.takeWhile isWordChar
    if name.isEmpty then none else
    let r3 := r2.drop name.length
    let r4 := r3.drop (r3.takeWhile isSpaceChar).length
    match r4 with
    | '(' :: r5 =>
      match lazyParamsSplit r5.length [] r5 with
      | some ps => some (name, ps)
      | none => none
    | _ => none
  else none

/-- Leftmost match of `def\s+(\w+)\s*\((.*?)\):` in the whole source,
modelling `pythonCode.match(...)`. -/
def findFunctionDefAux : Nat → List Char → Option (List Char × List Char)
  | _, [] => none
  | 0, _ => none
  | fuel + 1, c :: cs =>
    match matchDefAt (c :: cs) with
    | some r => some r
    | none => findFunctionDefAux fuel cs

def findFunctionDef (code : List Char) : Option (List Char × List Char) :=
  findFunctionDefAux code.length code

/-- The fixed keyword replacements of the per-line pass, in source order:
boolean and null literals, logical operators, the function keyword, the
self reference, and the empty-set constructor. -/
def keywordReplace (s0 : List Char) : List Char :=
  let s := wordReplaceAll "True" "true" true s0
  let s := wordReplaceAll "False" "false" true s
  let s := wordReplaceAll "None" "null" true s
  let s := wordReplaceAll "and" "&&" true s
  let s := wordReplaceAll "or" "||" true s
  let s := wordReplaceAll "not" "!" true s
  let s := wordReplaceAll "def" "function" true s
  let s := wordReplaceAll "self." "this." false s
  let s := wordReplaceAll "set()" "new Set()" false s
  s

/-- The built-in call translations of the per-line pass, in source order:
math functions, `len`, `.append` and `.remove`. -/
def builtinReplace (s0 : List Char) : List Char :=
  let s := wordReplaceAll "max(" "Math.max(" false s0
  let s := wordReplaceAll "min(" "Math.min(" false s
  let s := wordReplaceAll "abs(" "Math.abs(" false s
  let s := wordReplaceAll "round(" "Math.round(" false s
  let s := if containsSub "len(".data s.length s then replaceLen s.length s else s
  let s := litReplaceAll ".append(" ".push(" s
  let s := litReplaceAll ".remove(" ".delete(" s
  s

/-- The opening delimiters of docstrings. -/
def dq3 : List Char := "\x22\x22\x22".data

def sq3 : List Char := "\x27\x27\x27".data

/-- State of the per-line loop of the transpiler: the emitted body so far,
the indentation stack (top at the head, seeded with level 0), and the
docstring tracker. -/
structure LoopState where
  body : List Char
  indentStack : List Nat
  inDocstring : Bool
  docstringDelimiter : List Char

/-- Block closure on dedent: while the stack holds more than one level and
the top exceeds the relative indentation, pop and emit a closing brace
indented by four spaces per remaining level. -/
def closeBlocksAux : Nat → List Nat → Nat → List Char → List Nat × List Char
  | 0, st, _, b => (st, b)
  | fuel + 1, t :: r :: rest, rel, b =>
    if rel < t then
      closeBlocksAux fuel (r :: rest) rel
        (b ++ List.replicate (4 * (r :: rest).length) ' ' ++ ['\x7d', '\n'])
    else (t :: r :: rest, b)
  | _ + 1, st, _, b => (st, b)

/-- One iteration of the transpiler per-line loop: skipping of blanks,
comments, docstrings and `pass`, block closure on dedent, the keyword
replacements, the membership heuristic, the control-flow headers, the
conditional expression, and the built-in call translations. -/
def processLine (minIndent : Nat) (st : LoopState) (line : List Char) : LoopState :=
  let trimmed := trimChars line
  if trimmed.isEmpty || (match trimmed with
      | '#' :: _ => true
      | _ => false) then st
  else if st.inDocstring then
    if trimmed == st.docstringDelimiter || st.docstringDelimiter.isSuffixOf trimmed then
      ⟨st.body, st.indentStack, false, []⟩
    else st
  else if dq3.isPrefixOf trimmed || sq3.isPrefixOf trimmed then
    let delim := trimmed.take 3
    if decide (3 < trimmed.length) && delim.isSuffixOf trimmed && decide (6 < trimmed.length) then st
    else ⟨st.body, st.indentStack, true, delim⟩
  else if trimmed == "pass".data then st
  else
    let currentIndent := leadingSpaces line
    let dedented := line.drop minIndent
    let rel := currentIndent - minIndent
    let (stack1, body1) := closeBlocksAux st.indentStack.length st.indentStack rel st.body
    let jsLine0 := keywordReplace dedented
    let jsLine1 := applyInCheck jsLine0
    let step2 : List Char × List Nat :=
      match findForMatch jsLine1.length jsLine1 with
      | some (v, coll) =>
        ("for (const ".data ++ v ++ " of ".data ++ coll ++ ") \x7b".data, (rel + 4) :: stack1)
      | none =>
        let t := trimChars jsLine1
        if isKwHeader "if".data t then
          (replaceKwCond "if".data "if (".data ") \x7b".data jsLine1, (rel + 4) :: stack1)
        else if isKwHeader "elif".data t then
          (replaceKwCond "elif".data "\x7d else if (".data ") \x7b".data jsLine1, stack1)
        else if t == "else:".data then
          (replaceElseLine jsLine1, stack1)
        else if isKwHeader "while".data t then
          (replaceKwCond "while".data "while (".data ") \x7b".data jsLine1, (rel + 4) :: stack1)
        else (jsLine1, stack1)
    let jsLine2 := step2.1
    let stack2 := step2.2
    let trimmed2 := trimChars jsLine2
    let hasReturn := "return".data.isPrefixOf trimmed2
    let lineWithoutReturn := if hasReturn then trimChars (trimmed2.drop 6) else trimmed2
    let jsLine3 :=
      match findTernary lineWithoutReturn.length [] lineWithoutReturn with
      | some (a, cond, b) =>
        let expr := ['('] ++ cond ++ ") ? (".data ++ a ++ ") : (".data ++ b ++ [')']
        if hasReturn then "return ".data ++ expr else expr
      | none => jsLine2
    let jsLine4 := builtinReplace jsLine3
    ⟨body1 ++ jsLine4 ++ ['\n'], stack2, st.inDocstring, st.docstringDelimiter⟩

/-- The structural-line filter used for the minimum-indent computation:
blanks, comments and docstring lines are excluded, with the docstring
tracked by a toggled flag. -/
def structuralKeep (acc : Bool × List (List Char)) (line : List Char) :
    Bool × List (List Char) :=
  let skipDoc := acc.1
  let kept := acc.2
  let trimmed := trimChars line
  if trimmed.isEmpty || (match trimmed with
      | '#' :: _ => true
      | _ => false) then (skipDoc, kept)
  else if dq3.isPrefixOf trimmed || sq3.isPrefixOf trimmed then
    let delim := trimmed.take 3
    if delim.isSuffixOf trimmed && decide (6 < trimmed.length) then (skipDoc, kept)
    else (!skipDoc, kept)
  else if skipDoc then (skipDoc, kept)
  else (skipDoc, line :: kept)

def structuralLines (lines : List (List Char)) : List (List Char) :=
  ((lines.foldl structuralKeep (false, [])).2).reverse

/-- The dedent baseline: minimum leading-whitespace width over structural
lines, zero when there is none. -/
def minIndentOf (lines : List (List Char)) : Nat :=
  match (structuralLines lines).map leadingSpaces with
  | [] => 0
  | x :: xs => xs.foldl Nat.min x

/-- Final flush: pop every remaining open level and emit its closing brace. -/
def flushCloseAux : Nat → List Nat → List Char → List Char
  | 0, _, b => b
  | fuel + 1, _ :: r :: rest, b =>
    flushCloseAux fuel (r :: rest)
      (b ++ List.replicate (4 * (r :: rest).length) ' ' ++ ['\x7d', '\n'])
  | _ + 1, _, b => b

/-- The translated body of a function: the per-line loop over the body
lines followed by the block-closure flush and the empty-body fallback. -/
def buildBody (lines : List (List Char)) : List Char :=
  let mi := minIndentOf lines
  let st1 := lines.foldl (processLine mi) ⟨[], [0], false, []⟩
  let body := flushCloseAux st1.indentStack.length st1.indentStack st1.body
  if (trimChars body).isEmpty then "return undefined;".data else body

/-- The emitted host code, reproducing the template literal of the source
(its indentation included). -/
def emitJsCode (name params body : List Char) : List Char :=
  "\n                return function ".data ++ name ++ ['('] ++ params ++
  ") \x7b\n                    ".data ++ body ++
  "\n                \x7d;\n            ".data

/-- The pure part of transpilePythonToJS: signature extraction, body
translation and host-code emission; the inner error thrown when no
function definition is found. -/
def transpileEmit (pythonCode : String) : Except String String :=
  match findFunctionDef pythonCode.data with
  | none => Except.error "Could not find Python function definition"
  | some (name, params) =>
    let lines := (splitLines pythonCode.data).drop 1
    Except.ok (String.mk (emitJsCode name params (buildBody lines)))

/-- The translated body of a whole source text (the value of `body` right
before emission), used to state the block-structure claims. -/
def pyBody (src : String) : String :=
  String.mk (buildBody ((splitLines src.data).drop 1))

/-- Host runtime values the harness exchanges with compiled functions. -/
inductive JSVal : Type where
  | null : JSVal
  | undef : JSVal
  | bool : Bool → JSVal
  | num : Int → JSVal
  | str : String → JSVal
  | arr : List JSVal → JSVal

/-- String escaping of the host JSON serializer. -/
def jsonEscape : List Char → List Char
  | [] => []
  | c :: cs =>
    (if c = '\x22' then ['\\', '\x22']
     else if c = '\\' then ['\\', '\\']
     else if c = '\n' then ['\\', 'n']
     else if c = '\t' then ['\\', 't']
     else if c = '\r' then ['\\', 'r']
     else [c]) ++ jsonEscape cs

mutual

/-- Model of the host `JSON.stringify`: `undefined` serializes to no string
at all (the host returns the undefined value), and inside an array an
undefined element serializes as `null`. -/
def jsonOfVal : JSVal → Option (List Char)
  | JSVal.undef => none
  | JSVal.null => some "null".data
  | JSVal.bool true => some "true".data
  | JSVal.bool false => some "false".data
  | JSVal.num n => some (toString n).data
  | JSVal.str s => some (['\x22'] ++ jsonEscape s.data ++ ['\x22'])
  | JSVal.arr xs => some (['['] ++ jsonOfElems xs ++ [']'])

def jsonOfElems : List JSVal → List Char
  | [] => []
  | x :: rest =>
    let sx := match jsonOfVal x with
      | some s => s
      | none => "null".data
    match rest with
    | [] => sx
    | _ :: _ => sx ++ [','] ++ jsonOfElems rest

end

/-- A test case as supplied to the harness. -/
structure TestCase where
  input : JSVal
  expected : JSVal

/-- A per-case verdict of the harness. -/
structure TestResult where
  passed : Bool
  input : JSVal
  expected : JSVal
  actual : Option JSVal
  error : Option String
  executionTime : Nat

/-- A materialized compiled function: invocation either returns a value or
throws an error message. -/
def CompiledFn : Type := List JSVal → Except String JSVal

/-- The argument-determination block of both harness entry points: an array
input whose length equals the declared parameter count is spread as the
argument list, any other input is passed as the sole argument. -/
def determineArgs (input : JSVal) (paramCount : Nat) : List JSVal :=
  match input with
  | JSVal.arr xs => if xs.length = paramCount then xs else [JSVal.arr xs]
  | v => [v]

/-- One iteration of the per-case loop shared by `runTests` and
`submitSolution`: invoke with the determined arguments, compare the JSON
serializations on normal return, and capture a thrown error into a failed
result with no actual value and zero execution time. `tm` is the timing
oracle standing for the `performance.now()` difference of a successful
call. -/
def runTestCase (fn : CompiledFn) (tm : List JSVal → Nat) (paramCount : Nat)
    (c : TestCase) : TestResult :=
  let args := determineArgs c.input paramCount
  match fn args with
  | Except.ok actual =>
    ⟨jsonOfVal actual == jsonOfVal c.expected, c.input, c.expected,
      some actual, none, tm args⟩
  | Except.error msg =>
    ⟨false, c.input, c.expected, none, some msg, 0⟩

/-- The harness mapping over an ordered case list. -/
def runTests (fn : CompiledFn) (tm : List JSVal → Nat) (paramCount : Nat)
    (cases : List TestCase) : List TestResult :=
  cases.map (runTestCase fn tm paramCount)

/-- Whole transpilePythonToJS including materialization: `materialize`
stands for the dynamic code construction of the host (the function
constructor and the trampoline call); any error thrown inside is
rewrapped with the transpilation prefix. -/
def transpilePythonToJS (materialize : String → Except String CompiledFn)
    (code : String) : Except String CompiledFn :=
  match transpileEmit code with
  | Except.error msg => Except.error ("Python transpilation error: " ++ msg)
  | Except.ok jsCode =>
    match materialize jsCode with
    | Except.error msg => Except.error ("Python transpilation error: " ++ msg)
    | Except.ok fn => Except.ok fn

/-- Model of evaluateUserCode: rewraps any compilation failure. -/
def evaluateUserCode (materialize : String → Except String CompiledFn)
    (code : String) : Except String CompiledFn :=
  match transpilePythonToJS materialize code with
  | Except.error msg => Except.error ("Compilation error: " ++ msg)
  | Except.ok fn => Except.ok fn

/-- A whole batch as both harness entry points run it: compile first, and
only on success evaluate the cases; a compile failure yields the single
error and no result list. -/
def runBatch (materialize : String → Except String CompiledFn)
    (tm : List JSVal → Nat) (paramCount : Nat) (code : String)
    (cases : List TestCase) : Except String (List TestResult) :=
  match evaluateUserCode materialize code with
  | Except.error msg => Except.error msg
  | Except.ok fn => Except.ok (runTests fn tm paramCount cases)

/-- A trivial materialization oracle used for concrete witnesses. -/
def jUnit : String → Except String CompiledFn :=
  fun _ => Except.ok (fun _ => Except.ok JSVal.null)

/-- Number of occurrences of a character. -/
def countChar (c : Char) : List Char → Nat
  | [] => 0
  | d :: ds => (if d = c then 1 else 0) + countChar c ds

/-- Brace balance check: the depth never goes negative and ends at zero. -/
def braceScan : Nat → List Char → Bool
  | depth, [] => depth == 0
  | depth, c :: cs =>
    if c = '\x7b' then braceScan (depth + 1) cs
    else if c = '\x7d' then
      match depth with
      | 0 => false
      | d + 1 => braceScan d cs
    else braceScan depth cs

def bracesBalanced (s : List Char) : Bool := braceScan 0 s

/-- P5 scenario of the spec: the 3-level nesting if, for, if. -/
def src6 : String :=
  "def f(x):\n    if x > 0:\n        for i in x:\n            if i > 1:\n                return i\n"

/-- An if with an else branch at the same indentation. -/
def src7 : String :=
  "def f(x):\n    if x > 0:\n        return 1\n    else:\n        return 2\n"

/-- P7 scenario of the spec: the conditional-expression absolute value. -/
def src8 : String := "def f(x):\n    return x if x > 0 else -x\n"

/-- Modelled from the spec: the host-runtime value of the emitted line
`return (x > 0) ? (x) : (-x)` on an integer argument. The materialization
of emitted text into a callable happens through the dynamic code
construction of the host, which is not part of the repository source; the spec
describes the callable as returning x when x > 0 and -x otherwise. -/
def emittedTernarySem (x : Int) : Int := if x > 0 then x else -x

/-- The challenge-scene state the attempt counter lives in. -/
structure ChallengeState where
  failedAttempts : Nat
  gameOver : Bool

def MAX_ATTEMPTS : Nat := 3

/-- The events of the scene that can touch the counter: a trial run
(`runTests`), and a final submission (`submitSolution`) that either fails
to compile, passes every test, or has at least one failing result. -/
inductive ChallengeEvent : Type where
  | trialRun : ChallengeEvent
  | submitCompileError : ChallengeEvent
  | submitResults : List TestResult → ChallengeEvent

/-- `create` resets the counter for each new challenge. -/
def initChallenge : ChallengeState := ⟨0, false⟩

/-- One scene event: a trial run and a compile error leave the counter
alone; a submission whose results all pass leaves it alone; otherwise the
counter is incremented once and the terminal game-over state is entered
when it reaches the maximum. Once the game-over scene has started the
challenge scene is stopped, so further events do not apply. -/
def challengeStep (s : ChallengeState) (e : ChallengeEvent) : ChallengeState :=
  if s.gameOver then s
  else
    match e with
    | ChallengeEvent.trialRun => s
    | ChallengeEvent.submitCompileError => s
    | ChallengeEvent.submitResults rs =>
      if rs.all (fun r => r.passed) then s
      else
        let n := s.failedAttempts + 1
        ⟨n, decide (MAX_ATTEMPTS ≤ n)⟩

/-- The state after a sequence of events of one challenge. -/
def runChallenge (es : List ChallengeEvent) : ChallengeState :=
  es.foldl challengeStep initChallenge

/-- The counter invariant: bounded by the maximum, with game over exactly
at the maximum. -/
def challengeInv (s : ChallengeState) : Prop :=
  s.failedAttempts ≤ MAX_ATTEMPTS ∧ (s.gameOver = true ↔ s.failedAttempts = MAX_ATTEMPTS)

theorem challengeStep_stopped (s : ChallengeState) (hs : s.gameOver = true)
    (e : ChallengeEvent) : challengeStep s e = s := by
  unfold challengeStep
  rw [hs]
  rfl

theorem challengeStep_trial (s : ChallengeState) (hs : s.gameOver = false) :
    challengeStep s ChallengeEvent.trialRun = s := by
  unfold challengeStep
  rw [hs]
  rfl

theorem challengeStep_compileErr (s : ChallengeState) (hs : s.gameOver = false) :
    challengeStep s ChallengeEvent.submitCompileError = s := by
  unfold challengeStep
  rw [hs]
  rfl

theorem challengeStep_submit (s : ChallengeState) (hs : s.gameOver = false)
    (rs : List TestResult) :
    challengeStep s (ChallengeEvent.submitResults rs) =
      if rs.all (fun r => r.passed) then s
      else ⟨s.failedAttempts + 1, decide (MAX_ATTEMPTS ≤ s.failedAttempts + 1)⟩ := by
  unfold challengeStep
  rw [hs]
  rfl

theorem challengeStep_inv {s : ChallengeState} (e : ChallengeEvent)
    (h : challengeInv s) : challengeInv (challengeStep s e) := by
  obtain ⟨h1, h2⟩ := h
  by_cases hg : s.gameOver = true
  · rw [challengeStep_stopped s hg e]
    exact ⟨h1, h2⟩
  · simp only [Bool.not_eq_true] at hg
    cases e with
    | trialRun =>
      rw [challengeStep_trial s hg]
      exact ⟨h1, h2⟩
    | submitCompileError =>
      rw [challengeStep_compileErr s hg]
      exact ⟨h1, h2⟩
    | submitResults rs =>
      rw [challengeStep_submit s hg rs]
      by_cases hp : rs.all (fun r => r.passed) = true
      · rw [if_pos hp]
        exact ⟨h1, h2⟩
      · rw [if_neg hp]
        have hne : s.failedAttempts ≠ MAX_ATTEMPTS := by
          intro he
          rw [h2.mpr he] at hg
          simp at hg
        constructor
        · show s.failedAttempts + 1 ≤ MAX_ATTEMPTS
          unfold MAX_ATTEMPTS at *
          omega
        · show decide (MAX_ATTEMPTS ≤ s.failedAttempts + 1) = true ↔
            s.failedAttempts + 1 = MAX_ATTEMPTS
          unfold MAX_ATTEMPTS at *
          simp only [decide_eq_true_eq]
          omega

theorem challengeFold_inv (es : List ChallengeEvent) :
    ∀ s : ChallengeState, challengeInv s → challengeInv (es.foldl challengeStep s) := by
  induction es with
  | nil =>
    intro s h
    exact h
  | cons e es ih =>
    intro s h
    exact ih _ (challengeStep_inv e h)

/-- C1: for every test case whose input is an array, the harness spreads
its elements as the positional arguments exactly when its length equals
the declared parameter count, and otherwise (wrong length, or any
non-array input) passes the input as the one single argument; the
compiled function is invoked on exactly those arguments. In particular,
for a 2-parameter function the input [1, 2] is called as f(1, 2) and
[1, 2, 3] as f([1, 2, 3]). -/
theorem harness_arity_rule (k : Nat) (xs : List JSVal) (n : Int) (b : Bool) (s : String)
    (fn : CompiledFn) (tm : List JSVal → Nat) (c : TestCase) :
    determineArgs (JSVal.arr xs) k = (if xs.length = k then xs else [JSVal.arr xs]) ∧
    determineArgs (JSVal.num n) k = [JSVal.num n] ∧
    determineArgs (JSVal.bool b) k = [JSVal.bool b] ∧
    determineArgs (JSVal.str s) k = [JSVal.str s] ∧
    determineArgs JSVal.null k = [JSVal.null] ∧
    determineArgs JSVal.undef k = [JSVal.undef] ∧
    (runTestCase fn tm k c).actual = (fn (determineArgs c.input k)).toOption ∧
    determineArgs (JSVal.arr [JSVal.num 1, JSVal.num 2]) 2 = [JSVal.num 1, JSVal.num 2] ∧
    determineArgs (JSVal.arr [JSVal.num 1, JSVal.num 2, JSVal.num 3]) 2 =
      [JSVal.arr [JSVal.num 1, JSVal.num 2, JSVal.num 3]] := by
  refine ⟨rfl, rfl, rfl, rfl, rfl, rfl, ?_, rfl, rfl⟩
  unfold runTestCase
  cases h : fn (determineArgs c.input k) <;> simp [h, Except.toOption]

/-- C2: a case whose invocation throws yields a failed TestResult with no
actual value, the thrown message as its error and zero execution time,
and the harness still evaluates every case before and after it. -/
theorem harness_error_capture (fn : CompiledFn) (tm : List JSVal → Nat) (k : Nat)
    (c : TestCase) (msg : String)
    (h : fn (determineArgs c.input k) = Except.error msg) :
    runTestCase fn tm k c = ⟨false, c.input, c.expected, none, some msg, 0⟩ ∧
    ∀ (pre post : List TestCase),
      runTests fn tm k (pre ++ c :: post) =
        runTests fn tm k pre ++ runTestCase fn tm k c :: runTests fn tm k post := by
  constructor
  · unfold runTestCase
    simp only [h]
  · intro pre post
    simp [runTests]

theorem harness_error_capture_witness :
    runTestCase (fun _ => Except.error "boom") (fun _ => 0) 1 ⟨JSVal.num 1, JSVal.num 2⟩ =
      ⟨false, JSVal.num 1, JSVal.num 2, none, some "boom", 0⟩ :=
  (harness_error_capture (fun _ => Except.error "boom") (fun _ => 0) 1
    ⟨JSVal.num 1, JSVal.num 2⟩ "boom" rfl).1

/-- C3: on any list of n cases the harness returns exactly n results, and
the result at every index is the one produced from the case at the same
index. -/
theorem harness_order_preservation (fn : CompiledFn) (tm : List JSVal → Nat) (k : Nat)
    (cases : List TestCase) :
    (runTests fn tm k cases).length = cases.length ∧
    ∀ i : Nat, (runTests fn tm k cases)[i]? = (cases[i]?).map (runTestCase fn tm k) := by
  constructor
  · simp [runTests]
  · intro i
    simp [runTests]

/-- C4 counterexample: on a source with no function definition the inner
compile error message is the code text "Could not find Python function
definition", not the claimed "Could not find function definition". -/
theorem compile_missing_def_message_counterexample :
    transpileEmit "x = 1" = Except.error "Could not find Python function definition" ∧
    transpileEmit "x = 1" ≠ Except.error "Could not find function definition" := by
  constructor
  · rfl
  · intro h
    exact absurd (Except.error.inj h) (by decide)

/-- C4 (amended): for every source text in which no header matching
def name(params): is present, compilation fails with the error
"Could not find Python function definition" (surfaced through the two
rewrapping layers), the failure happens before any test case is
attempted, and the batch yields the single compile error and no
TestResult list. -/
theorem compile_missing_def_fails (materialize : String → Except String CompiledFn)
    (tm : List JSVal → Nat) (k : Nat) (code : String) (cases : List TestCase)
    (h : findFunctionDef code.data = none) :
    transpileEmit code = Except.error "Could not find Python function definition" ∧
    transpilePythonToJS materialize code =
      Except.error "Python transpilation error: Could not find Python function definition" ∧
    runBatch materialize tm k code cases =
      Except.error
        "Compilation error: Python transpilation error: Could not find Python function definition" := by
  unfold runBatch evaluateUserCode transpilePythonToJS transpileEmit
  rw [h]
  exact ⟨rfl, rfl, rfl⟩

theorem compile_missing_def_fails_witness :
    runBatch jUnit (fun _ => 0) 1 "x = 1" [] =
      Except.error
        "Compilation error: Python transpilation error: Could not find Python function definition" :=
  (compile_missing_def_fails jUnit (fun _ => 0) 1 "x = 1" [] rfl).2.2

/-- C5: for a case whose invocation returns normally, the produced result
is passed exactly when the JSON serialization of the returned value
equals the JSON serialization of the expected value. -/
theorem harness_passed_iff_serialization (fn : CompiledFn) (tm : List JSVal → Nat)
    (k : Nat) (c : TestCase) (v : JSVal)
    (h : fn (determineArgs c.input k) = Except.ok v) :
    ((runTestCase fn tm k c).passed = true ↔ jsonOfVal v = jsonOfVal c.expected) := by
  unfold runTestCase
  simp only [h]
  simp

theorem harness_passed_iff_serialization_witness :
    (runTestCase (fun _ => Except.ok (JSVal.num 1)) (fun _ => 0) 1
      ⟨JSVal.num 1, JSVal.num 1⟩).passed = true :=
  (harness_passed_iff_serialization (fun _ => Except.ok (JSVal.num 1)) (fun _ => 0) 1
    ⟨JSVal.num 1, JSVal.num 1⟩ (JSVal.num 1) rfl).mpr rfl

/-- C6: the 3-level nesting if, for, if of the 4-space-indented source
transpiles to a body with exactly three closing braces matching the three
opened blocks, emitted innermost first (at decreasing indentation), and
the braces of the body are balanced. -/
theorem transpile_nested_blocks_closure :
    pyBody src6 =
      "if (x > 0) \x7b\nfor (const i of x) \x7b\n        if (i > 1) \x7b\n            return i\n            \x7d\n        \x7d\n    \x7d\n" ∧
    countChar '\x7d' (pyBody src6).data = 3 ∧
    countChar '\x7b' (pyBody src6).data = 3 ∧
    bracesBalanced (pyBody src6).data = true :=
  ⟨rfl, rfl, rfl, rfl⟩

/-- C7 at the failing input src7: the else line is translated to
"\x7d else \x7b" without pushing a block level, but the dedent loop has
already emitted a closing brace for the if block before the else line, so
the emitted body closes one more brace than it opens before the else and
its braces are not balanced: the emitted host code is not a valid
callable. -/
theorem transpile_else_unbalanced :
    pyBody src7 =
      "if (x > 0) \x7b\n    return 1\n    \x7d\n\x7d else \x7b\n    return 2\n" ∧
    containsSub "\x7d else \x7b".data (pyBody src7).data.length (pyBody src7).data = true ∧
    bracesBalanced (pyBody src7).data = false :=
  ⟨rfl, rfl, rfl⟩

/-- C8: the body line return x if x > 0 else -x is translated to
return (x > 0) ? (x) : (-x), and the host-runtime value of that emitted
expression is the absolute value of the integer argument. -/
theorem transpile_ternary_absolute_value :
    pyBody src8 = "return (x > 0) ? (x) : (-x)\n" ∧
    ∀ x : Int, emittedTernarySem x = |x| := by
  refine ⟨rfl, ?_⟩
  intro x
  by_cases h : 0 < x
  · simp [emittedTernarySem, h, abs_of_pos h]
  · simp [emittedTernarySem, h, abs_of_nonpos (le_of_not_lt h)]

/-- C9: compilation and the whole batch are pure functions of the source
text (and of the fixed materialization oracle), so compiling the same
source twice yields identical observable behavior on any case list. -/
theorem compile_deterministic (materialize : String → Except String CompiledFn)
    (tm : List JSVal → Nat) (k : Nat) (code : String) (cases : List TestCase) :
    transpileEmit code = transpileEmit code ∧
    evaluateUserCode materialize code = evaluateUserCode materialize code ∧
    runBatch materialize tm k code cases = runBatch materialize tm k code cases :=
  ⟨rfl, rfl, rfl⟩

/-- C10: starting from the reset counter of a fresh challenge, after any
event sequence the failed-attempt counter is at most 3 and the terminal
game-over state holds exactly when it equals 3; moreover a trial run, a
compile-error submission and a fully passing submission leave the counter
unchanged, and a submission with at least one failing result increments
it by exactly one. -/
theorem attempt_counter_invariant (es : List ChallengeEvent) :
    (runChallenge es).failedAttempts ≤ MAX_ATTEMPTS ∧
    ((runChallenge es).gameOver = true ↔ (runChallenge es).failedAttempts = MAX_ATTEMPTS) ∧
    initChallenge.failedAttempts = 0 ∧
    (∀ s : ChallengeState, s.gameOver = false →
      challengeStep s ChallengeEvent.trialRun = s ∧
      challengeStep s ChallengeEvent.submitCompileError = s ∧
      (∀ rs : List TestResult, rs.all (fun r => r.passed) = true →
        challengeStep s (ChallengeEvent.submitResults rs) = s) ∧
      (∀ rs : List TestResult, rs.all (fun r => r.passed) = false →
        (challengeStep s (ChallengeEvent.submitResults rs)).failedAttempts =
          s.failedAttempts + 1)) := by
  have hinv : challengeInv (runChallenge es) :=
    challengeFold_inv es initChallenge
      ⟨by simp [initChallenge, MAX_ATTEMPTS], by simp [initChallenge, MAX_ATTEMPTS]⟩
  refine ⟨hinv.1, hinv.2, rfl, ?_⟩
  intro s hs
  refine ⟨challengeStep_trial s hs, challengeStep_compileErr s hs, ?_, ?_⟩
  · intro rs hp
    rw [challengeStep_submit s hs rs, if_pos hp]
  · intro rs hp
    rw [challengeStep_submit s hs rs, if_neg ?_]
    intro hc
    rw [hp] at hc
    exact Bool.false_ne_true hc

theorem attempt_counter_invariant_witness :
    (challengeStep initChallenge
      (ChallengeEvent.submitResults
        [⟨false, JSVal.null, JSVal.null, none, none, 0⟩])).failedAttempts =
      initChallenge.failedAttempts + 1 :=
  ((attempt_counter_invariant []).2.2.2 initChallenge rfl).2.2.2
    [⟨false, JSVal.null, JSVal.null, none, none, 0⟩] rfl
